import Mathlib

set_option autoImplicit false

/-!
Verification of the SQL-statement normalizer in `src/main.rs`.

The program consumes an abstract syntax tree produced by the external
`sqlparser` crate (MySQL dialect) and extracts a `SqlStruct` summary from
it.  We embed the AST shapes the code pattern-matches on, the `SqlStruct`
model, and the five extraction functions `parse_select`, `parse_insert`,
`parse_update`, `parse_delete`, `parse_create` (each Rust function first
parses a fixed SQL text; the embedding starts from the resulting
`Statement` value, the part the extraction logic consumes).

Rust `panic!` sites (`Option::unwrap` on a failed numeric parse, `Vec`
indexing out of bounds) are embedded as `Except.error` with an
`ExtractError` that records which panic fired; a panic aborts the process
in the source, it is not a typed `Err` return.  Rust `HashMap` is embedded
as an association list with unique keys and last-write-wins insertion;
its unspecified iteration order is a separate argument to the rendering
function.
-/

/-! ### AST shapes (from the sqlparser crate, as matched by the code) -/

structure Ident where
  value : String
  deriving DecidableEq, Repr

inductive SqlValue where
  | Number (s : String)
  | SingleQuotedString (s : String)
  | Boolean (b : Bool)
  | otherValue
  deriving DecidableEq, Repr

inductive UnaryOperator where
  | Minus
  | Plus
  | otherOp
  deriving DecidableEq, Repr

inductive SqlExpr where
  | Identifier (i : Ident)
  | Value (v : SqlValue)
  | UnaryOp (op : UnaryOperator) (e : SqlExpr)
  | otherExpr
  deriving DecidableEq, Repr

inductive SelectItem where
  | UnnamedExpr (e : SqlExpr)
  | ExprWithAlias (e : SqlExpr) (a : Ident)
  | otherItem
  deriving DecidableEq, Repr

structure TableAlias where
  name : Ident
  deriving DecidableEq, Repr

inductive TableFactor where
  | Table (name : List Ident) (al : Option TableAlias)
  | otherFactor
  deriving DecidableEq, Repr

structure TableWithJoins where
  relation : TableFactor
  deriving DecidableEq, Repr

structure OrderByExpr where
  expr : SqlExpr
  asc : Option Bool
  deriving DecidableEq, Repr

structure SelectBody where
  projection : List SelectItem
  from_ : List TableWithJoins
  selection : Option SqlExpr
  deriving DecidableEq, Repr

inductive SetExpr where
  | Select (s : SelectBody)
  | Values (rows : List (List SqlExpr))
  | otherSet
  deriving DecidableEq, Repr

structure OffsetStruct where
  value : SqlExpr
  deriving DecidableEq, Repr

structure Query where
  body : SetExpr
  order_by : List OrderByExpr
  limit : Option SqlExpr
  offset : Option OffsetStruct
  deriving DecidableEq, Repr

structure Assignment where
  id : List Ident
  value : SqlExpr
  deriving DecidableEq, Repr

structure ColumnDef where
  name : Ident
  deriving DecidableEq, Repr

inductive Statement where
  | Query (q : Query)
  | Insert (table_name : List Ident) (columns : List Ident) (source : Query)
  | Update (table : TableWithJoins) (assignments : List Assignment) (selection : Option SqlExpr)
  | Delete (from_ : List TableWithJoins) (selection : Option SqlExpr)
  | CreateTable (name : List Ident) (columns : List ColumnDef)
  deriving DecidableEq, Repr

/-! ### The model types (`TableInfo`, `MysqlValue`, `SqlStruct`) -/

/-- Rust `struct TableInfo` of the source; all fields `Default`-initialised
(`index = 0`, strings empty). -/
structure TableInfo where
  index : Nat := 0
  schema : String := ""
  table : String := ""
  al : String := ""
  deriving DecidableEq, Repr

/-- Rust `enum MysqlValue` of the source. -/
inductive MysqlValue where
  | None
  | String (s : String)
  | Number (n : Nat)
  | Boolean (b : Bool)
  deriving DecidableEq, Repr

/-- Rust `struct SqlStruct` of the source.  The two Rust `HashMap`s are embedded
as association lists with unique keys (see `insertLWW`). -/
structure SqlStruct where
  table_infos : List TableInfo := []
  get_fields : List String := []
  set_fields : List (String × MysqlValue) := []
  order_by_fields : List (String × Bool) := []
  limit : Option Int := none
  offset : Option Int := none
  where_exist : Bool := false
  deriving DecidableEq, Repr

/-- Which Rust panic fired during extraction.  In the source these abort
the whole process; they are not returned to the caller. -/
inductive ExtractError where
  | numPanic (s : String)
  | indexPanic
  deriving DecidableEq, Repr

/-! ### Association-list model of `HashMap` -/

/-- Rust `HashMap::insert`: replace the (unique) entry with this key, else
append.  Last write wins. -/
def insertLWW {α : Type} : List (String × α) → String → α → List (String × α)
  | [], k, v => [(k, v)]
  | p :: rest, k, v => if p.1 = k then (k, v) :: rest else p :: insertLWW rest k v

/-- Rust `HashMap::get`-style lookup in the association-list model. -/
def lookup {α : Type} : List (String × α) → String → Option α
  | [], _ => none
  | p :: rest, k => if p.1 = k then some p.2 else lookup rest k

/-- Number of entries carrying a given key. -/
def countKey {α : Type} : List (String × α) → String → Nat
  | [], _ => 0
  | p :: rest, k => (if p.1 = k then 1 else 0) + countKey rest k

/-! ### Numeric parsing (Rust `str::parse` for `i32` and `u64`) -/

/-- Value of a digit string, most significant first. -/
def digitsVal (l : List Char) : Nat :=
  l.foldl (fun a c => a * 10 + (c.toNat - 48)) 0

/-- Nonempty and all ASCII digits. -/
def allDigits (l : List Char) : Bool :=
  !l.isEmpty && l.all Char.isDigit

def parseNatDigits (l : List Char) : Option Nat :=
  if allDigits l then some (digitsVal l) else none

/-- Rust `"...".parse::<i32>()`: optional sign, then digits, range-checked. -/
def parseI32 (s : String) : Option Int :=
  let l := s.data
  if l.head? = some '-' then
    (parseNatDigits l.tail).bind fun n => if n ≤ 2 ^ 31 then some (-(n : Int)) else none
  else if l.head? = some '+' then
    (parseNatDigits l.tail).bind fun n => if n ≤ 2 ^ 31 - 1 then some ((n : Nat) : Int) else none
  else
    (parseNatDigits l).bind fun n => if n ≤ 2 ^ 31 - 1 then some ((n : Nat) : Int) else none

/-- Rust `"...".parse::<u64>()`: optional `+`, digits, range-checked
(a leading `-` is rejected for unsigned types). -/
def parseU64 (s : String) : Option Nat :=
  let l := s.data
  if l.head? = some '+' then
    (parseNatDigits l.tail).bind fun n => if n ≤ 2 ^ 64 - 1 then some n else none
  else if l.head? = some '-' then
    none
  else
    (parseNatDigits l).bind fun n => if n ≤ 2 ^ 64 - 1 then some n else none

/-! ### parse_select (lines 123-233 of main.rs, after the text parse) -/

/-- The projection loop body: a bare identifier (unnamed or aliased)
yields its column name, everything else is skipped. -/
def bareColumn : SelectItem → Option String
  | .UnnamedExpr (.Identifier i) => some i.value
  | .ExprWithAlias (.Identifier i) _ => some i.value
  | _ => none

/-- One iteration of the FROM-loop: a plain table factor whose name has
one or two segments yields a `TableInfo` with `index = i + 1`. -/
def tableInfoOfFactor (i : Nat) : TableFactor → Option TableInfo
  | .Table name al =>
      let aliasName := match al with
        | some a => a.name.value
        | none => ""
      match name with
      | [a, b] => some { index := i + 1, schema := a.value, table := b.value, al := aliasName }
      | [a] => some { index := i + 1, table := a.value, al := aliasName }
      | _ => none
  | .otherFactor => none

/-- The `for (index, table_expr) in ...enumerate()` loop of `parse_select`
(also duplicated verbatim in `parse_delete`), with running index `i`. -/
def extractTablesFrom (i : Nat) : List TableWithJoins → List TableInfo
  | [] => []
  | tw :: rest =>
      match tableInfoOfFactor i tw.relation with
      | some ti => ti :: extractTablesFrom (i + 1) rest
      | none => extractTablesFrom (i + 1) rest

def extractTables (tws : List TableWithJoins) : List TableInfo :=
  extractTablesFrom 0 tws

/-- The LIMIT block: a `Value::Number` literal is parsed with
`parse::<i32>().unwrap()` (panic on failure); any other shape leaves the
bound absent. -/
def extractLimit : Option SqlExpr → Except ExtractError (Option Int)
  | some (.Value (.Number s)) =>
      match parseI32 s with
      | some n => .ok (some n)
      | none => .error (.numPanic s)
  | _ => .ok none

/-- The OFFSET block, same shape as the LIMIT block over `offset.value`. -/
def extractOffset : Option OffsetStruct → Except ExtractError (Option Int)
  | some off =>
      match off.value with
      | .Value (.Number s) =>
          match parseI32 s with
          | some n => .ok (some n)
          | none => .error (.numPanic s)
      | _ => .ok none
  | none => .ok none

/-- The ORDER BY loop: bare identifiers are inserted into the map with
their `asc` flag (`unwrap_or(false)`); other expressions are skipped. -/
def extractOrderBy (items : List OrderByExpr) : List (String × Bool) :=
  items.foldl
    (fun m item =>
      match item.expr with
      | .Identifier i => insertLWW m i.value (item.asc.getD false)
      | _ => m)
    []

def parse_select (st : Statement) : Except ExtractError SqlStruct :=
  match st with
  | .Query q =>
      let s1 : SqlStruct :=
        match q.body with
        | .Select sel =>
            { get_fields := sel.projection.filterMap bareColumn
              table_infos := extractTables sel.from_
              where_exist := sel.selection.isSome }
        | _ => {}
      match extractLimit q.limit with
      | .error e => .error e
      | .ok lim =>
          match extractOffset q.offset with
          | .error e => .error e
          | .ok off =>
              .ok { s1 with limit := lim, offset := off, order_by_fields := extractOrderBy q.order_by }
  | _ => .ok {}

/-! ### parse_insert (lines 235-308) -/

/-- Table-name resolution shared by `parse_insert`, `parse_update` and
`parse_create`: one or two name segments yield a `TableInfo` built with
`..Default::default()`, so its `index` stays 0. -/
def tableInfosOfName (name : List Ident) : List TableInfo :=
  match name with
  | [a, b] => [{ schema := a.value, table := b.value }]
  | [a] => [{ table := a.value }]
  | _ => []

/-- The inner `for item in row` loop of `parse_insert`.  For a recognized
literal the column name at the running index is looked up first
(`get(i).unwrap()`, index panic when out of bounds), then for numbers the
string is parsed (`parse::<u64>().unwrap()`, panic on failure), the map
entry is written and the index advances.  Unrecognized items are skipped
and do not advance the index.  Returns the advanced index and the map. -/
def insertValuesLoop :
    List SqlExpr → Nat → List String → List (String × MysqlValue) →
      Except ExtractError (Nat × List (String × MysqlValue))
  | [], i, _, m => .ok (i, m)
  | item :: rest, i, names, m =>
      match item with
      | .Value (.Number s) =>
          match names[i]? with
          | none => .error .indexPanic
          | some fname =>
              match parseU64 s with
              | none => .error (.numPanic s)
              | some n => insertValuesLoop rest (i + 1) names (insertLWW m fname (.Number n))
      | .Value (.SingleQuotedString s) =>
          match names[i]? with
          | none => .error .indexPanic
          | some fname => insertValuesLoop rest (i + 1) names (insertLWW m fname (.String s))
      | .Value (.Boolean b) =>
          match names[i]? with
          | none => .error .indexPanic
          | some fname => insertValuesLoop rest (i + 1) names (insertLWW m fname (.Boolean b))
      | _ => insertValuesLoop rest i names m

/-- The outer `for row in rows` loop: the running index is carried across
rows. -/
def insertRowsLoop :
    List (List SqlExpr) → Nat → List String → List (String × MysqlValue) →
      Except ExtractError (Nat × List (String × MysqlValue))
  | [], i, _, m => .ok (i, m)
  | row :: rest, i, names, m =>
      match insertValuesLoop row i names m with
      | .error e => .error e
      | .ok (i2, m2) => insertRowsLoop rest i2 names m2

def parse_insert (st : Statement) : Except ExtractError SqlStruct :=
  match st with
  | .Insert table_name columns source =>
      let names := columns.map Ident.value
      let init := names.foldl (fun m c => insertLWW m c .None) []
      match source.body with
      | .Values rows =>
          match insertRowsLoop rows 0 names init with
          | .error e => .error e
          | .ok (_, m) =>
              .ok { table_infos := tableInfosOfName table_name, set_fields := m }
      | _ => .ok { table_infos := tableInfosOfName table_name, set_fields := init }
  | _ => .ok {}

/-! ### parse_update (lines 310-368) -/

/-- The SET-clause loop of `parse_update`: the key is
`assignment.id[0].value` (index panic on an empty path); the value uses
the same literal recognition as INSERT, with `parse::<u64>().unwrap()`
for numbers. -/
def updateAssignLoop :
    List Assignment → List (String × MysqlValue) →
      Except ExtractError (List (String × MysqlValue))
  | [], m => .ok m
  | a :: rest, m =>
      match a.id.head? with
      | none => .error .indexPanic
      | some k0 =>
          match a.value with
          | .Value (.Number s) =>
              match parseU64 s with
              | none => .error (.numPanic s)
              | some n => updateAssignLoop rest (insertLWW m k0.value (.Number n))
          | .Value (.SingleQuotedString s) =>
              updateAssignLoop rest (insertLWW m k0.value (.String s))
          | .Value (.Boolean b) =>
              updateAssignLoop rest (insertLWW m k0.value (.Boolean b))
          | _ => updateAssignLoop rest m

def parse_update (st : Statement) : Except ExtractError SqlStruct :=
  match st with
  | .Update table assignments selection =>
      let tis :=
        match table.relation with
        | .Table name _ => tableInfosOfName name
        | .otherFactor => []
      match updateAssignLoop assignments [] with
      | .error e => .error e
      | .ok m =>
          .ok { table_infos := tis, set_fields := m, where_exist := selection.isSome }
  | _ => .ok {}

/-! ### parse_delete (lines 370-423) and parse_create (lines 425-462) -/

def parse_delete (st : Statement) : SqlStruct :=
  match st with
  | .Delete tws selection =>
      { table_infos := extractTables tws, where_exist := selection.isSome }
  | _ => {}

def parse_create (st : Statement) : SqlStruct :=
  match st with
  | .CreateTable name columns =>
      { table_infos := tableInfosOfName name
        set_fields := columns.foldl (fun m c => insertLWW m c.name.value .None) [] }
  | _ => {}

/-! ### Display (lines 23-31 and 52-118) -/

/-- Embeds `impl Display for TableInfo`: the alias is stored but never rendered. -/
def tableInfoDisplay (t : TableInfo) : String :=
  if t.schema.length = 0 then
    "table" ++ toString t.index ++ ": " ++ t.table
  else
    "table" ++ toString t.index ++ ": " ++ t.schema ++ "." ++ t.table

/-- Rust derived `Debug` for `MysqlValue` (escape sequences inside string
payloads are not modelled; the inputs used here contain none). -/
def mysqlValueDebug : MysqlValue → String
  | .None => "None"
  | .String s => "String(\"" ++ s ++ "\")"
  | .Number n => "Number(" ++ toString n ++ ")"
  | .Boolean b => "Boolean(" ++ (if b then "true" else "false") ++ ")"

/-- Rust `Debug` for `Option<i32>`. -/
def optIntDebug : Option Int → String
  | none => "None"
  | some n => "Some(" ++ toString n ++ ")"

/-- The push/`pop`/`pop` bracket building of the `Display` impl is the
comma-separated join. -/
def joinComma (l : List String) : String :=
  String.intercalate ", " l

def bracketed (l : List String) : String :=
  "[" ++ joinComma l ++ "]"

/-- Embeds `impl Display for SqlStruct`.  The source iterates the two `HashMap`s
with `for (k, v) in &map`, whose order is unspecified; the embedding
therefore takes the iteration sequences of `set_fields` and
`order_by_fields` as arguments (any permutation of the map entries is a
possible run). -/
def sqlStructDisplay (s : SqlStruct) (setIter : List (String × MysqlValue))
    (orderIter : List (String × Bool)) : String :=
  "table_infos: " ++ bracketed (s.table_infos.map tableInfoDisplay) ++
  ", select_fields: " ++ bracketed s.get_fields ++
  ", set_fields: " ++ bracketed (setIter.map fun p => p.1 ++ "=" ++ mysqlValueDebug p.2) ++
  ", order_by_fields: " ++
    joinComma (orderIter.map fun p => p.1 ++ " " ++ (if p.2 then "ASC" else "DESC")) ++
  ", limit: " ++ optIntDebug s.limit ++
  ", offset: " ++ optIntDebug s.offset ++
  ", where_exist: " ++ (if s.where_exist then "true" else "false")

/-! ### Derived notions used by the specification statements -/

/-- The literal recognition shared by the INSERT and UPDATE loops: the
normalized value a recognized literal expression produces (`none` for any
shape the loops skip, and for a numeric literal whose `u64` parse fails,
which the loops turn into a panic instead). -/
def recognize : SqlExpr → Option MysqlValue
  | .Value (.Number s) => (parseU64 s).map MysqlValue.Number
  | .Value (.SingleQuotedString s) => some (.String s)
  | .Value (.Boolean b) => some (.Boolean b)
  | _ => none

/-- Expression shapes that make the INSERT loop advance its running index
(the three literal arms of the `if let` chain). -/
def isRecognizedShape : SqlExpr → Bool
  | .Value (.Number _) => true
  | .Value (.SingleQuotedString _) => true
  | .Value (.Boolean _) => true
  | _ => false

/-- Number of recognized literal values in a value list. -/
def recognizedCount (l : List SqlExpr) : Nat :=
  (l.filter isRecognizedShape).length

/-- A numeric literal in this expression, if any, parses as `u64`
(rules out the `parse::<u64>().unwrap()` panic). -/
def numOk : SqlExpr → Bool
  | .Value (.Number s) => (parseU64 s).isSome
  | _ => true

/-- A FROM-clause factor that yields a table entry: a plain table whose
name has one or two segments. -/
def factorEligible : TableFactor → Bool
  | .Table name _ => decide (name.length = 1 ∨ name.length = 2)
  | .otherFactor => false

/-! ### Concrete statements used as counterexample / failing inputs -/

/-- Statement `INSERT INTO TB1 (A, B) VALUES(X, 20)`: the first value is a bare
column reference (unrecognized), the second a numeric literal. -/
def c1InsertStmt : Statement :=
  .Insert [⟨"TB1"⟩] [⟨"A"⟩, ⟨"B"⟩]
    { body := .Values [[SqlExpr.Identifier ⟨"X"⟩, SqlExpr.Value (.Number "20")]]
      order_by := [], limit := none, offset := none }

/-- Statement `SELECT FROM TB1 LIMIT 99999999999`: the limit literal exceeds the
`i32` range. -/
def c2SelectStmt : Statement :=
  .Query
    { body := .Select { projection := [], from_ := [⟨.Table [⟨"TB1"⟩] none⟩], selection := none }
      order_by := [], limit := some (.Value (.Number "99999999999")), offset := none }

/-- Statement `INSERT INTO TB1 () VALUES` with a single-segment table name. -/
def c3InsertStmt : Statement :=
  .Insert [⟨"TB1"⟩] [] { body := .Values [], order_by := [], limit := none, offset := none }

/-- A model whose assignment mapping holds two entries. -/
def c4RenderStruct : SqlStruct :=
  { set_fields := [("AGE", .Number 20), ("NAME", .String "ZHANG_SAN")] }

/-- Statement `SELECT LIMIT -1`: a negative limit literal, which the external parser
delivers as a unary-minus expression over the literal `1`. -/
def c5SelectStmt : Statement :=
  .Query
    { body := .Select { projection := [], from_ := [], selection := none }
      order_by := [], limit := some (.UnaryOp .Minus (.Value (.Number "1"))), offset := none }

/-! ### Association-list lemmas -/

theorem lookup_insertLWW_self {α : Type} (m : List (String × α)) (k : String) (v : α) :
    lookup (insertLWW m k v) k = some v := by
  induction m with
  | nil => simp [insertLWW, lookup]
  | cons p rest ih => by_cases h : p.1 = k <;> simp [insertLWW, lookup, h, ih]

theorem lookup_insertLWW_ne {α : Type} (m : List (String × α)) (k k2 : String) (v : α)
    (h : k2 ≠ k) : lookup (insertLWW m k v) k2 = lookup m k2 := by
  induction m with
  | nil => simp [insertLWW, lookup, Ne.symm h]
  | cons p rest ih =>
      by_cases hp : p.1 = k
      · subst hp
        simp [insertLWW, lookup, Ne.symm h, h]
      · simp only [insertLWW, if_neg hp, lookup]
        by_cases hq : p.1 = k2 <;> simp [hq, ih]

theorem countKey_insertLWW_self {α : Type} (m : List (String × α)) (k : String) (v : α)
    (h : countKey m k ≤ 1) : countKey (insertLWW m k v) k = 1 := by
  induction m with
  | nil => simp [insertLWW, countKey]
  | cons p rest ih =>
      by_cases hp : p.1 = k
      · have h0 : countKey rest k = 0 := by
          simp [countKey, hp] at h
          omega
        simp [insertLWW, hp, countKey, h0]
      · simp only [countKey, if_neg hp, Nat.zero_add] at h
        simp [insertLWW, hp, countKey, ih h]

/-! ### Generic list lemmas -/

theorem length_filterMap_eq_length_filter {α β : Type} (f : α → Option β) (l : List α) :
    (l.filterMap f).length = (l.filter fun a => (f a).isSome).length := by
  induction l with
  | nil => rfl
  | cons a t ih => cases h : f a <;> simp [List.filterMap_cons, h, List.filter_cons, ih]

/-! ### Claim theorems -/

/-- C1, counterexample.  The claim predicts that for
`INSERT INTO TB1 (A, B) VALUES(X, 20)` the column `A` (whose value
expression `X` is unrecognized) is absent from the mapping and `B` is
bound to `UnsignedInteger 20`.  The code instead pre-binds both columns
to `Unset` and consumes recognized values with a running index, so `A`
receives `Number 20` and `B` stays bound to `None`. -/
theorem insert_pairwise_counterexample :
    ((parse_insert c1InsertStmt).toOption.map fun s =>
        (lookup s.set_fields "A", lookup s.set_fields "B"))
      = some (some (MysqlValue.Number 20), some MysqlValue.None) ∧
    ((parse_insert c1InsertStmt).toOption.map fun s => lookup s.set_fields "B")
      ≠ some (some (MysqlValue.Number 20)) ∧
    ((parse_insert c1InsertStmt).toOption.map fun s => lookup s.set_fields "A")
      ≠ some none := by
  refine ⟨by decide, by decide, by decide⟩

/-- C2, code bug.  On `SELECT ... LIMIT 99999999999` the limit literal is
out of the `i32` range and `limit_number.parse::<i32>().unwrap()` panics,
aborting the process instead of returning the typed failure the
specification requires (the embedding records the panic as
`ExtractError.numPanic`). -/
theorem limit_overflow_panics :
    parse_select c2SelectStmt = .error (.numPanic "99999999999") := by
  rfl

/-- C3, counterexample.  For the single-table statement
`INSERT INTO TB1 ...` the produced table reference has position 0, not 1:
`parse_insert` builds its `TableInfo` with `..Default::default()`, which
leaves `index = 0`. -/
theorem insert_position_zero_counterexample :
    ((parse_insert c3InsertStmt).toOption.map fun s => s.table_infos.map TableInfo.index)
      = some [0] ∧
    ((parse_insert c3InsertStmt).toOption.map fun s => s.table_infos.map TableInfo.index)
      ≠ some [1] := by
  refine ⟨by decide, by decide⟩

/-- C4, code bug.  The `Display` impl iterates the `set_fields` `HashMap`
with `for (k, v) in &self.set_fields`, whose order is unspecified: two
renderings of the same model under two (permuted) iteration orders of the
same entries produce different strings, so the rendering is not
deterministic in the model alone as the specification requires. -/
theorem display_depends_on_iteration_order :
    List.Perm c4RenderStruct.set_fields
      [("NAME", MysqlValue.String "ZHANG_SAN"), ("AGE", MysqlValue.Number 20)] ∧
    sqlStructDisplay c4RenderStruct c4RenderStruct.set_fields [] ≠
      sqlStructDisplay c4RenderStruct
        [("NAME", MysqlValue.String "ZHANG_SAN"), ("AGE", MysqlValue.Number 20)] [] := by
  refine ⟨by decide, by decide⟩

/-- C5, counterexample.  For `SELECT ... LIMIT -1` the negative literal
reaches the extraction as a unary-minus expression, which the LIMIT block
does not match: the call succeeds and the bound is silently absent,
whereas the claim requires a negative literal present in the clause to be
a failure of the extraction call. -/
theorem negative_limit_silently_absent :
    (parse_select c5SelectStmt).toOption.map SqlStruct.limit = some none := by
  decide

/-- C6.  Last-write-wins law of the assignment and ordering mappings:
inserting the same key twice into a map (that held at most one entry for
it, the invariant of every map the program builds) leaves exactly one
entry holding the last value; a later duplicate ORDER BY mention of a
column replaces the earlier one in `extractOrderBy`, and a later
duplicate SET target replaces the earlier one in the UPDATE assignment
loop. -/
theorem duplicate_key_last_write_wins :
    (∀ (α : Type) (m : List (String × α)) (k : String) (v1 v2 : α), countKey m k ≤ 1 →
        lookup (insertLWW (insertLWW m k v1) k v2) k = some v2 ∧
        countKey (insertLWW (insertLWW m k v1) k v2) k = 1) ∧
    (∀ (items : List OrderByExpr) (k : String) (b1 b2 : Bool),
        lookup (extractOrderBy (items ++ [⟨.Identifier ⟨k⟩, some b1⟩, ⟨.Identifier ⟨k⟩, some b2⟩]))
            k = some b2) ∧
    (∀ (m : List (String × MysqlValue)) (k : String) (s1 s2 : String), countKey m k ≤ 1 →
        updateAssignLoop
            [⟨[⟨k⟩], .Value (.SingleQuotedString s1)⟩, ⟨[⟨k⟩], .Value (.SingleQuotedString s2)⟩]
            m
          = .ok (insertLWW (insertLWW m k (.String s1)) k (.String s2)) ∧
        lookup (insertLWW (insertLWW m k (.String s1)) k (.String s2)) k
          = some (.String s2) ∧
        countKey (insertLWW (insertLWW m k (.String s1)) k (.String s2)) k = 1) := by
  have law : ∀ (α : Type) (m : List (String × α)) (k : String) (v1 v2 : α), countKey m k ≤ 1 →
      lookup (insertLWW (insertLWW m k v1) k v2) k = some v2 ∧
      countKey (insertLWW (insertLWW m k v1) k v2) k = 1 := by
    intro α m k v1 v2 h
    have h1 : countKey (insertLWW m k v1) k = 1 := countKey_insertLWW_self m k v1 h
    exact ⟨lookup_insertLWW_self _ k v2,
      countKey_insertLWW_self _ k v2 (le_of_eq h1)⟩
  refine ⟨law, ?_, ?_⟩
  · intro items k b1 b2
    unfold extractOrderBy
    rw [List.foldl_append]
    simp [lookup_insertLWW_self]
  · intro m k s1 s2 h
    refine ⟨by simp [updateAssignLoop], lookup_insertLWW_self _ k _, ?_⟩
    exact countKey_insertLWW_self _ k _ (le_of_eq (countKey_insertLWW_self m k _ h))

/-- C6, witness. -/
theorem duplicate_key_last_write_wins_witness :
    countKey ([] : List (String × Bool)) "AGE" ≤ 1 ∧
    lookup (insertLWW (insertLWW ([] : List (String × Bool)) "AGE" false) "AGE" true) "AGE"
      = some true := by
  refine ⟨by decide, ?_⟩
  exact (duplicate_key_last_write_wins.1 Bool [] "AGE" false true (by decide)).1

/-- C7.  The predicate-presence flag of the model equals `is_some()` of
the WHERE clause for SELECT, UPDATE and DELETE statements, independent of
the clause content. -/
theorem where_flag_iff_where_clause :
    (∀ (sel : SelectBody) (ob : List OrderByExpr) (lim : Option SqlExpr)
        (off : Option OffsetStruct) (s : SqlStruct),
        parse_select (.Query ⟨.Select sel, ob, lim, off⟩) = .ok s →
        s.where_exist = sel.selection.isSome) ∧
    (∀ (t : TableWithJoins) (asgs : List Assignment) (w : Option SqlExpr) (s : SqlStruct),
        parse_update (.Update t asgs w) = .ok s → s.where_exist = w.isSome) ∧
    (∀ (tws : List TableWithJoins) (w : Option SqlExpr),
        (parse_delete (.Delete tws w)).where_exist = w.isSome) := by
  refine ⟨?_, ?_, ?_⟩
  · intro sel ob lim off s h
    simp only [parse_select] at h
    cases hL : extractLimit lim with
    | error e => simp [hL] at h
    | ok lv =>
        cases hO : extractOffset off with
        | error e => simp [hL, hO] at h
        | ok ov =>
            simp [hL, hO] at h
            subst h
            rfl
  · intro t asgs w s h
    simp only [parse_update] at h
    cases hU : updateAssignLoop asgs [] with
    | error e => simp [hU] at h
    | ok m =>
        simp [hU] at h
        subst h
        rfl
  · intro tws w
    simp [parse_delete]

/-- C7, witness. -/
theorem where_flag_iff_where_clause_witness :
    parse_select (.Query ⟨.Select ⟨[], [], some (.Value (.Boolean true))⟩, [], none, none⟩)
      = .ok { where_exist := true } ∧
    ({ where_exist := true } : SqlStruct).where_exist
      = (some (SqlExpr.Value (.Boolean true))).isSome := by
  refine ⟨by rfl, ?_⟩
  exact where_flag_iff_where_clause.1 ⟨[], [], some (.Value (.Boolean true))⟩ [] none none
    { where_exist := true } (by rfl)

/-- C8.  The projected-field list of a SELECT is exactly the in-order
`filterMap` of the projection over bare-column recognition: all N
bare-identifier columns appear, in source order, and every other
projection shape contributes nothing. -/
theorem projection_fields_source_order :
    ∀ (sel : SelectBody) (ob : List OrderByExpr) (lim : Option SqlExpr)
      (off : Option OffsetStruct) (s : SqlStruct),
      parse_select (.Query ⟨.Select sel, ob, lim, off⟩) = .ok s →
      s.get_fields = sel.projection.filterMap bareColumn ∧
      s.get_fields.length
        = (sel.projection.filter fun it => (bareColumn it).isSome).length := by
  intro sel ob lim off s h
  simp only [parse_select] at h
  cases hL : extractLimit lim with
  | error e => simp [hL] at h
  | ok lv =>
      cases hO : extractOffset off with
      | error e => simp [hL, hO] at h
      | ok ov =>
          simp [hL, hO] at h
          subst h
          exact ⟨rfl, length_filterMap_eq_length_filter _ _⟩

/-- C8, witness. -/
theorem projection_fields_source_order_witness :
    parse_select (.Query ⟨.Select
        ⟨[.UnnamedExpr (.Identifier ⟨"ID"⟩), .otherItem, .ExprWithAlias (.Identifier ⟨"NAME"⟩) ⟨"n"⟩],
          [], none⟩, [], none, none⟩)
      = .ok { get_fields := ["ID", "NAME"] } ∧
    (["ID", "NAME"] : List String)
      = [SelectItem.UnnamedExpr (.Identifier ⟨"ID"⟩), SelectItem.otherItem,
          SelectItem.ExprWithAlias (.Identifier ⟨"NAME"⟩) ⟨"n"⟩].filterMap bareColumn := by
  refine ⟨by rfl, ?_⟩
  exact (projection_fields_source_order
    ⟨[.UnnamedExpr (.Identifier ⟨"ID"⟩), .otherItem, .ExprWithAlias (.Identifier ⟨"NAME"⟩) ⟨"n"⟩],
      [], none⟩ [] none none { get_fields := ["ID", "NAME"] } (by rfl)).1

/-- C10.  Absent schema and absent alias are represented as the empty
string: a factor with no alias produces the same `TableInfo` as one whose
alias is the empty string, and a two-segment name with empty first
segment produces the same `TableInfo` as the plain one-segment name (both
in the SELECT/DELETE resolver and in the INSERT/UPDATE/CREATE resolver). -/
theorem absent_schema_alias_empty_string :
    ∀ (i : Nat) (name : List Ident) (t : String) (al : Option TableAlias),
      tableInfoOfFactor i (.Table name none)
        = tableInfoOfFactor i (.Table name (some ⟨⟨""⟩⟩)) ∧
      tableInfoOfFactor i (.Table [⟨""⟩, ⟨t⟩] al)
        = tableInfoOfFactor i (.Table [⟨t⟩] al) ∧
      tableInfosOfName [⟨""⟩, ⟨t⟩] = tableInfosOfName [⟨t⟩] := by
  intro i name t al
  refine ⟨?_, ?_, rfl⟩
  · rcases name with _ | ⟨a, _ | ⟨b, _ | _⟩⟩ <;> rfl
  · rcases al with _ | a <;> rfl

/-! ### Table-position lemmas (claim C3) -/

theorem tableInfoOfFactor_of_eligible (i : Nat) (f : TableFactor)
    (h : factorEligible f = true) :
    ∃ ti, tableInfoOfFactor i f = some ti ∧ ti.index = i + 1 := by
  cases f with
  | otherFactor => simp [factorEligible] at h
  | Table name al =>
      rcases name with _ | ⟨a, _ | ⟨b, _ | ⟨c, rest⟩⟩⟩
      · simp [factorEligible] at h
      · exact ⟨_, rfl, rfl⟩
      · exact ⟨_, rfl, rfl⟩
      · simp [factorEligible] at h

theorem extractTablesFrom_index (tws : List TableWithJoins) :
    ∀ i : Nat, (∀ tw ∈ tws, factorEligible tw.relation = true) →
      (extractTablesFrom i tws).map TableInfo.index = List.range' (i + 1) tws.length := by
  induction tws with
  | nil => intro i _; rfl
  | cons tw rest ih =>
      intro i h
      obtain ⟨ti, hti, hidx⟩ :=
        tableInfoOfFactor_of_eligible i tw.relation (h tw (List.mem_cons_self _ _))
      have hrest := ih (i + 1) fun x hx => h x (List.mem_cons_of_mem _ hx)
      simp [extractTablesFrom, hti, hidx, hrest, List.range'_succ]

/-- C3, amended.  In SELECT and DELETE each produced table reference
carries position `i + 1` for its 0-based clause position `i`, so when
every FROM factor is a plain table of one or two name segments the
positions are the contiguous run `1..K`; factors that produce no entry
leave gaps.  In INSERT, UPDATE and CREATE TABLE the resolver builds the
reference with a defaulted `index`, so its position is 0, not 1. -/
theorem table_positions_amended :
    ∀ (tws : List TableWithJoins) (w : Option SqlExpr) (name : List Ident),
      (∀ tw ∈ tws, factorEligible tw.relation = true) →
      (name.length = 1 ∨ name.length = 2) →
      (parse_delete (.Delete tws w)).table_infos.map TableInfo.index
        = List.range' 1 tws.length ∧
      (tableInfosOfName name).map TableInfo.index = [0] := by
  intro tws w name h hn
  constructor
  · simpa [parse_delete, extractTables] using extractTablesFrom_index tws 0 h
  · rcases name with _ | ⟨a, _ | ⟨b, _ | ⟨c, rest⟩⟩⟩
    · simp at hn
    · rfl
    · rfl
    · simp at hn

/-- C3, witness. -/
theorem table_positions_amended_witness :
    (∀ tw ∈ ([⟨.Table [⟨"TB1"⟩] none⟩, ⟨.Table [⟨"DB1"⟩, ⟨"TB2"⟩] none⟩] :
        List TableWithJoins), factorEligible tw.relation = true) ∧
    (parse_delete (.Delete [⟨.Table [⟨"TB1"⟩] none⟩, ⟨.Table [⟨"DB1"⟩, ⟨"TB2"⟩] none⟩]
        none)).table_infos.map TableInfo.index = List.range' 1 2 ∧
    (tableInfosOfName [⟨"TB1"⟩]).map TableInfo.index = [0] := by
  refine ⟨by decide, ?_⟩
  exact table_positions_amended [⟨.Table [⟨"TB1"⟩] none⟩, ⟨.Table [⟨"DB1"⟩, ⟨"TB2"⟩] none⟩]
    none [⟨"TB1"⟩] (by decide) (by decide)

/-! ### LIMIT/OFFSET lemmas (claim C5) -/

theorem parseI32_of_digits (s : String) (h : allDigits s.data = true)
    (hle : digitsVal s.data ≤ 2 ^ 31 - 1) :
    parseI32 s = some ((digitsVal s.data : Nat) : Int) := by
  have hhead : ∀ c : Char, s.data.head? = some c → c.isDigit = true := by
    intro c hc
    cases hd : s.data with
    | nil => rw [hd] at hc; simp at hc
    | cons c2 t =>
        rw [hd] at hc
        simp at hc
        rw [hd] at h
        simp [allDigits] at h
        rw [← hc]
        exact h.1
  have hminus : ¬ s.data.head? = some '-' := by
    intro hc
    have := hhead _ hc
    simp at this
  have hplus : ¬ s.data.head? = some '+' := by
    intro hc
    have := hhead _ hc
    simp at this
  simp only [parseI32, if_neg hminus, if_neg hplus]
  simp [parseNatDigits, h]
  simpa using hle

/-- C5, amended.  Absent LIMIT/OFFSET leave both bounds absent.  A
structurally present digit-string literal within the `i32` range
round-trips exactly and is non-negative.  A present numeric literal whose
`i32` parse fails aborts the extraction (the `unwrap` panic).  A negative
literal arrives as a unary-minus expression, a non-`Value` shape, which
leaves the bound silently absent rather than failing. -/
theorem limit_offset_amended (sel : SelectBody) (ob : List OrderByExpr) :
    ((parse_select (.Query ⟨.Select sel, ob, none, none⟩)).toOption.map
        fun s => (s.limit, s.offset)) = some (none, none) ∧
    (∀ s2 : String, allDigits s2.data = true → digitsVal s2.data ≤ 2 ^ 31 - 1 →
        ((parse_select (.Query ⟨.Select sel, ob, some (.Value (.Number s2)), none⟩)).toOption.map
            SqlStruct.limit) = some (some ((digitsVal s2.data : Nat) : Int)) ∧
        (0 : Int) ≤ ((digitsVal s2.data : Nat) : Int)) ∧
    (∀ s2 : String, parseI32 s2 = none →
        parse_select (.Query ⟨.Select sel, ob, some (.Value (.Number s2)), none⟩)
          = .error (.numPanic s2)) ∧
    (∀ e : SqlExpr, (∀ v, e ≠ .Value v) →
        ((parse_select (.Query ⟨.Select sel, ob, some e, none⟩)).toOption.map
            SqlStruct.limit) = some none) ∧
    (∀ s2 : String, allDigits s2.data = true → digitsVal s2.data ≤ 2 ^ 31 - 1 →
        ((parse_select (.Query ⟨.Select sel, ob, none,
            some ⟨.Value (.Number s2)⟩⟩)).toOption.map SqlStruct.offset)
          = some (some ((digitsVal s2.data : Nat) : Int))) := by
  refine ⟨?_, ?_, ?_, ?_, ?_⟩
  · simp [parse_select, extractLimit, extractOffset, Except.toOption]
  · intro s2 h1 h2
    refine ⟨?_, Int.natCast_nonneg _⟩
    simp [parse_select, extractLimit, extractOffset, Except.toOption,
      parseI32_of_digits s2 h1 h2]
  · intro s2 h
    simp [parse_select, extractLimit, extractOffset, h]
  · intro e he
    have hok : extractLimit (some e) = .ok none := by
      cases e with
      | Value v => exact absurd rfl (he v)
      | Identifier i => rfl
      | UnaryOp op e2 => rfl
      | otherExpr => rfl
    simp [parse_select, hok, extractOffset, Except.toOption]
  · intro s2 h1 h2
    simp [parse_select, extractLimit, extractOffset, Except.toOption,
      parseI32_of_digits s2 h1 h2]

/-- C5, witness. -/
theorem limit_offset_amended_witness :
    allDigits "10".data = true ∧ digitsVal "10".data ≤ 2 ^ 31 - 1 ∧
    ((parse_select (.Query ⟨.Select ⟨[], [], none⟩, [],
        some (.Value (.Number "10")), none⟩)).toOption.map SqlStruct.limit)
      = some (some ((digitsVal "10".data : Nat) : Int)) := by
  refine ⟨by decide, by decide, ?_⟩
  exact ((limit_offset_amended ⟨[], [], none⟩ []).2.1 "10" (by decide) (by decide)).1

/-! ### INSERT value-loop lemmas (claims C9 and C1) -/

theorem insertValuesLoop_append (l1 l2 : List SqlExpr) :
    ∀ (i : Nat) (names : List String) (m : List (String × MysqlValue)),
      insertValuesLoop (l1 ++ l2) i names m =
        match insertValuesLoop l1 i names m with
        | .error e => .error e
        | .ok r => insertValuesLoop l2 r.1 names r.2 := by
  induction l1 with
  | nil => intro i names m; rfl
  | cons e rest ih =>
      intro i names m
      cases e with
      | Value v =>
          cases v with
          | Number s =>
              cases hg : names[i]? with
              | none => simp [insertValuesLoop, hg]
              | some fname =>
                  cases hp : parseU64 s with
                  | none => simp [insertValuesLoop, hg, hp]
                  | some n => simp [insertValuesLoop, hg, hp, ih]
          | SingleQuotedString s =>
              cases hg : names[i]? with
              | none => simp [insertValuesLoop, hg]
              | some fname => simp [insertValuesLoop, hg, ih]
          | Boolean b =>
              cases hg : names[i]? with
              | none => simp [insertValuesLoop, hg]
              | some fname => simp [insertValuesLoop, hg, ih]
          | otherValue => simp [insertValuesLoop, ih]
      | Identifier id2 => simp [insertValuesLoop, ih]
      | UnaryOp op e2 => simp [insertValuesLoop, ih]
      | otherExpr => simp [insertValuesLoop, ih]

theorem insertRowsLoop_eq_join (rows : List (List SqlExpr)) :
    ∀ (i : Nat) (names : List String) (m : List (String × MysqlValue)),
      insertRowsLoop rows i names m = insertValuesLoop rows.flatten i names m := by
  induction rows with
  | nil => intro i names m; rfl
  | cons row rest ih =>
      intro i names m
      rw [show (row :: rest).flatten = row ++ rest.flatten from rfl, insertValuesLoop_append]
      cases h : insertValuesLoop row i names m with
      | error e => simp [insertRowsLoop, h]
      | ok r =>
          obtain ⟨i2, m2⟩ := r
          simp [insertRowsLoop, h, ih]

theorem insertValuesLoop_ok_iff (items : List SqlExpr) :
    ∀ (i : Nat) (names : List String) (m : List (String × MysqlValue)),
      (∀ e ∈ items, numOk e = true) →
      ((∃ r, insertValuesLoop items i names m = .ok r) ↔
        (recognizedCount items = 0 ∨ i + recognizedCount items ≤ names.length)) := by
  induction items with
  | nil =>
      intro i names m _
      simp [insertValuesLoop, recognizedCount]
  | cons e rest ih =>
      intro i names m h
      have hrest : ∀ x ∈ rest, numOk x = true := fun x hx => h x (List.mem_cons_of_mem _ hx)
      cases e with
      | Value v =>
          cases v with
          | Number s =>
              have hnum := h _ (List.mem_cons_self _ _)
              simp only [numOk] at hnum
              obtain ⟨n, hn⟩ := Option.isSome_iff_exists.mp hnum
              have hrc1 : recognizedCount (SqlExpr.Value (SqlValue.Number s) :: rest)
                  = recognizedCount rest + 1 := by
                simp [recognizedCount, List.filter_cons, isRecognizedShape]
              cases hg : names[i]? with
              | none =>
                  have hge : names.length ≤ i := List.getElem?_eq_none_iff.mp hg
                  rw [hrc1]
                  constructor
                  · rintro ⟨r, hr⟩
                    simp [insertValuesLoop, hg] at hr
                  · rintro (h0 | hle) <;> (exfalso; omega)
              | some fname =>
                  have hlt : i < names.length := by
                    by_contra hc
                    rw [List.getElem?_eq_none_iff.mpr (Nat.le_of_not_lt hc)] at hg
                    cases hg
                  have hstep : insertValuesLoop (SqlExpr.Value (SqlValue.Number s) :: rest)
                      i names m
                      = insertValuesLoop rest (i + 1) names (insertLWW m fname (.Number n)) := by
                    simp [insertValuesLoop, hg, hn]
                  rw [hstep, ih (i + 1) names _ hrest, hrc1]
                  omega
          | SingleQuotedString s =>
              have hrc1 : recognizedCount (SqlExpr.Value (SqlValue.SingleQuotedString s) :: rest)
                  = recognizedCount rest + 1 := by
                simp [recognizedCount, List.filter_cons, isRecognizedShape]
              cases hg : names[i]? with
              | none =>
                  have hge : names.length ≤ i := List.getElem?_eq_none_iff.mp hg
                  rw [hrc1]
                  constructor
                  · rintro ⟨r, hr⟩
                    simp [insertValuesLoop, hg] at hr
                  · rintro (h0 | hle) <;> (exfalso; omega)
              | some fname =>
                  have hlt : i < names.length := by
                    by_contra hc
                    rw [List.getElem?_eq_none_iff.mpr (Nat.le_of_not_lt hc)] at hg
                    cases hg
                  have hstep : insertValuesLoop
                      (SqlExpr.Value (SqlValue.SingleQuotedString s) :: rest) i names m
                      = insertValuesLoop rest (i + 1) names (insertLWW m fname (.String s)) := by
                    simp [insertValuesLoop, hg]
                  rw [hstep, ih (i + 1) names _ hrest, hrc1]
                  omega
          | Boolean b =>
              have hrc1 : recognizedCount (SqlExpr.Value (SqlValue.Boolean b) :: rest)
                  = recognizedCount rest + 1 := by
                simp [recognizedCount, List.filter_cons, isRecognizedShape]
              cases hg : names[i]? with
              | none =>
                  have hge : names.length ≤ i := List.getElem?_eq_none_iff.mp hg
                  rw [hrc1]
                  constructor
                  · rintro ⟨r, hr⟩
                    simp [insertValuesLoop, hg] at hr
                  · rintro (h0 | hle) <;> (exfalso; omega)
              | some fname =>
                  have hlt : i < names.length := by
                    by_contra hc
                    rw [List.getElem?_eq_none_iff.mpr (Nat.le_of_not_lt hc)] at hg
                    cases hg
                  have hstep : insertValuesLoop (SqlExpr.Value (SqlValue.Boolean b) :: rest)
                      i names m
                      = insertValuesLoop rest (i + 1) names (insertLWW m fname (.Boolean b)) := by
                    simp [insertValuesLoop, hg]
                  rw [hstep, ih (i + 1) names _ hrest, hrc1]
                  omega
          | otherValue =>
              have hrc : recognizedCount (SqlExpr.Value SqlValue.otherValue :: rest)
                  = recognizedCount rest := by
                simp [recognizedCount, List.filter_cons, isRecognizedShape]
              rw [show insertValuesLoop (SqlExpr.Value SqlValue.otherValue :: rest) i names m
                  = insertValuesLoop rest i names m from by simp [insertValuesLoop],
                ih i names m hrest, hrc]
      | Identifier id2 =>
          have hrc : recognizedCount (SqlExpr.Identifier id2 :: rest) = recognizedCount rest := by
            simp [recognizedCount, List.filter_cons, isRecognizedShape]
          rw [show insertValuesLoop (SqlExpr.Identifier id2 :: rest) i names m
              = insertValuesLoop rest i names m from by simp [insertValuesLoop],
            ih i names m hrest, hrc]
      | UnaryOp op e2 =>
          have hrc : recognizedCount (SqlExpr.UnaryOp op e2 :: rest) = recognizedCount rest := by
            simp [recognizedCount, List.filter_cons, isRecognizedShape]
          rw [show insertValuesLoop (SqlExpr.UnaryOp op e2 :: rest) i names m
              = insertValuesLoop rest i names m from by simp [insertValuesLoop],
            ih i names m hrest, hrc]
      | otherExpr =>
          have hrc : recognizedCount (SqlExpr.otherExpr :: rest) = recognizedCount rest := by
            simp [recognizedCount, List.filter_cons, isRecognizedShape]
          rw [show insertValuesLoop (SqlExpr.otherExpr :: rest) i names m
              = insertValuesLoop rest i names m from by simp [insertValuesLoop],
            ih i names m hrest, hrc]

/-- C9.  Under the assumption that every numeric literal in the rows
parses as `u64` (ruling out the separate parse panic), the INSERT value
extraction runs to completion without the `get(i).unwrap()` index panic
exactly when the total number of recognized literal values across all
rows is at most the length of the column list; the single running index
is carried across rows. -/
theorem insert_index_panic_iff (tname columns : List Ident) (rows : List (List SqlExpr))
    (h : ∀ e ∈ rows.flatten, numOk e = true) :
    (∃ s, parse_insert (.Insert tname columns ⟨.Values rows, [], none, none⟩) = .ok s) ↔
      recognizedCount rows.flatten ≤ columns.length := by
  have hiff := insertValuesLoop_ok_iff rows.flatten 0 (columns.map Ident.value)
      ((columns.map Ident.value).foldl (fun m c => insertLWW m c .None) []) h
  simp only [parse_insert]
  rw [insertRowsLoop_eq_join]
  cases hL : insertValuesLoop rows.flatten 0 (columns.map Ident.value)
      ((columns.map Ident.value).foldl (fun m c => insertLWW m c .None) []) with
  | error e =>
      rw [hL] at hiff
      simp only [List.length_map] at hiff
      constructor
      · rintro ⟨s, hs⟩
        simp at hs
      · intro hle
        exfalso
        obtain ⟨r, hr⟩ := hiff.mpr (Or.inr (by omega))
        cases hr
  | ok r =>
      rw [hL] at hiff
      simp only [List.length_map] at hiff
      constructor
      · intro _
        rcases hiff.mp ⟨r, rfl⟩ with h0 | hle <;> omega
      · intro _
        obtain ⟨i2, m2⟩ := r
        exact ⟨_, rfl⟩

/-- C9, witness. -/
theorem insert_index_panic_iff_witness :
    (∀ e ∈ ([[SqlExpr.Value (.Boolean true)]] : List (List SqlExpr)).flatten, numOk e = true) ∧
    recognizedCount ([[SqlExpr.Value (.Boolean true)]] : List (List SqlExpr)).flatten
      ≤ ([⟨"A"⟩] : List Ident).length ∧
    ∃ s, parse_insert (.Insert [⟨"TB1"⟩] [⟨"A"⟩]
        ⟨.Values [[.Value (.Boolean true)]], [], none, none⟩) = .ok s := by
  refine ⟨by decide, by decide, ?_⟩
  exact (insert_index_panic_iff [⟨"TB1"⟩] [⟨"A"⟩] [[.Value (.Boolean true)]]
    (by decide)).mpr (by decide)

theorem insertValuesLoop_lookup (items : List SqlExpr) :
    ∀ (i : Nat) (names : List String) (m : List (String × MysqlValue)),
      names.Nodup →
      (∀ e ∈ items, (recognize e).isSome = true) →
      i + items.length ≤ names.length →
      ∃ r, insertValuesLoop items i names m = .ok r ∧
        (∀ (j : Nat) (c : String) (e : SqlExpr), items[j]? = some e →
            names[i + j]? = some c → lookup r.2 c = recognize e) ∧
        (∀ k : String, (∀ j : Nat, j < items.length → names[i + j]? ≠ some k) →
            lookup r.2 k = lookup m k) := by
  induction items with
  | nil =>
      intro i names m _ _ _
      refine ⟨(i, m), rfl, ?_, ?_⟩
      · intro j c e hj
        simp at hj
      · intro k _
        rfl
  | cons e rest ih =>
      intro i names m hnd hrec hlen
      have hlt : i < names.length := by
        simp at hlen
        omega
      obtain ⟨c0, hc0⟩ : ∃ c0, names[i]? = some c0 := by
        cases hg : names[i]? with
        | none =>
            exfalso
            have := List.getElem?_eq_none_iff.mp hg
            omega
        | some c => exact ⟨c, rfl⟩
      have hrest : ∀ x ∈ rest, (recognize x).isSome = true :=
        fun x hx => hrec x (List.mem_cons_of_mem _ hx)
      have hlen2 : (i + 1) + rest.length ≤ names.length := by
        simp at hlen
        omega
      have hkey : ∀ j : Nat, j < rest.length → names[i + 1 + j]? ≠ some c0 := by
        intro j hj hEq
        have heq2 : names[i]? = names[i + 1 + j]? := by rw [hc0, hEq]
        have := List.getElem?_inj hlt hnd heq2
        omega
      have hre := hrec e (List.mem_cons_self _ _)
      have main : ∀ (val : MysqlValue), recognize e = some val →
          insertValuesLoop (e :: rest) i names m
            = insertValuesLoop rest (i + 1) names (insertLWW m c0 val) →
          ∃ r, insertValuesLoop (e :: rest) i names m = .ok r ∧
            (∀ (j : Nat) (c : String) (e2 : SqlExpr), (e :: rest)[j]? = some e2 →
                names[i + j]? = some c → lookup r.2 c = recognize e2) ∧
            (∀ k : String, (∀ j : Nat, j < (e :: rest).length → names[i + j]? ≠ some k) →
                lookup r.2 k = lookup m k) := by
        intro val hval hstep
        obtain ⟨r, hr, h1, h2⟩ := ih (i + 1) names (insertLWW m c0 val) hnd hrest hlen2
        refine ⟨r, by rw [hstep, hr], ?_, ?_⟩
        · intro j c e2 hj hcj
          cases j with
          | zero =>
              simp at hj
              subst hj
              rw [Nat.add_zero] at hcj
              have hcc : c = c0 := by
                rw [hcj] at hc0
                exact Option.some_inj.mp hc0
              subst hcc
              rw [h2 c hkey, lookup_insertLWW_self, hval]
          | succ j2 =>
              have hsh : i + (j2 + 1) = (i + 1) + j2 := by omega
              rw [hsh] at hcj
              exact h1 j2 c e2 (by simpa using hj) hcj
        · intro k hk
          have hk0 : names[i]? ≠ some k := by
            have := hk 0 (by simp)
            simpa using this
          have hkne : k ≠ c0 := by
            intro he
            exact hk0 (he ▸ hc0)
          have hkr : ∀ j : Nat, j < rest.length → names[i + 1 + j]? ≠ some k := by
            intro j hj
            have := hk (j + 1) (by simp; omega)
            rw [show i + (j + 1) = i + 1 + j from by omega] at this
            exact this
          rw [h2 k hkr, lookup_insertLWW_ne m c0 k val hkne]
      cases e with
      | Value v =>
          cases v with
          | Number s =>
              obtain ⟨n, hn⟩ : ∃ n, parseU64 s = some n := by
                cases hps : parseU64 s with
                | none => rw [recognize, hps] at hre; simp at hre
                | some n => exact ⟨n, rfl⟩
              exact main (.Number n) (by simp [recognize, hn])
                (by simp [insertValuesLoop, hc0, hn])
          | SingleQuotedString s =>
              exact main (.String s) rfl (by simp [insertValuesLoop, hc0])
          | Boolean b =>
              exact main (.Boolean b) rfl (by simp [insertValuesLoop, hc0])
          | otherValue => simp [recognize] at hre
      | Identifier id2 => simp [recognize] at hre
      | UnaryOp op e2 => simp [recognize] at hre
      | otherExpr => simp [recognize] at hre

/-- C1, amended.  Every listed column is first bound to `Unset`
(`MysqlValue.None`); the recognized literal values of the row are then
bound in order at a running index that advances once per recognized
value.  Hence when every value expression of the single row is a
recognized literal and the row and the column list have equal length,
the Nth column is bound to the normalized Nth value; a column whose
value is not recognized or not reached stays bound to `Unset`, it is not
absent. -/
theorem insert_assignment_amended (tname columns : List Ident) (row : List SqlExpr)
    (hnd : (columns.map Ident.value).Nodup)
    (hrec : ∀ e ∈ row, (recognize e).isSome = true)
    (hlen : row.length = columns.length) :
    ∃ s, parse_insert (.Insert tname columns ⟨.Values [row], [], none, none⟩) = .ok s ∧
      ∀ (n : Nat) (c : Ident) (e : SqlExpr), columns[n]? = some c → row[n]? = some e →
        lookup s.set_fields c.value = recognize e := by
  have hlen2 : 0 + row.length ≤ (columns.map Ident.value).length := by
    simp [hlen]
  obtain ⟨r, hr, h1, _⟩ := insertValuesLoop_lookup row 0 (columns.map Ident.value)
      ((columns.map Ident.value).foldl (fun m c => insertLWW m c .None) []) hnd hrec hlen2
  refine ⟨{ table_infos := tableInfosOfName tname, set_fields := r.2 }, ?_, ?_⟩
  · simp only [parse_insert, insertRowsLoop, hr]
  · intro n c e hc he
    have hcv : (columns.map Ident.value)[n]? = some c.value := by
      rw [List.getElem?_map, hc]
      rfl
    have := h1 n c.value e he (by simpa using hcv)
    simpa using this

/-- C1 amended, witness (the INSERT scenario of the specification). -/
theorem insert_assignment_amended_witness :
    (([⟨"NAME"⟩, ⟨"AGE"⟩, ⟨"FLAG"⟩] : List Ident).map Ident.value).Nodup ∧
    ∃ s, parse_insert (.Insert [⟨"TB1"⟩] [⟨"NAME"⟩, ⟨"AGE"⟩, ⟨"FLAG"⟩]
        ⟨.Values [[.Value (.SingleQuotedString "ZHANG_SAN"), .Value (.Number "20"),
          .Value (.Boolean true)]], [], none, none⟩) = .ok s ∧
      ∀ (n : Nat) (c : Ident) (e : SqlExpr),
        ([⟨"NAME"⟩, ⟨"AGE"⟩, ⟨"FLAG"⟩] : List Ident)[n]? = some c →
        ([.Value (.SingleQuotedString "ZHANG_SAN"), .Value (.Number "20"),
          .Value (.Boolean true)] : List SqlExpr)[n]? = some e →
        lookup s.set_fields c.value = recognize e := by
  refine ⟨by decide, ?_⟩
  exact insert_assignment_amended [⟨"TB1"⟩] [⟨"NAME"⟩, ⟨"AGE"⟩, ⟨"FLAG"⟩]
    [.Value (.SingleQuotedString "ZHANG_SAN"), .Value (.Number "20"), .Value (.Boolean true)]
    (by decide) (by decide) (by decide)
